import Mathlib

/-
Shallow embedding of the PVZ pickup-point order service (Go sources under
src/): the order data model, the order service state machine
(pkg service, src/unnamed/part_005), the packager factory
(src/unnamed/part_006), the Redis and in-memory order caches
(src/unnamed/part_009, src/unnamed/part_010), the audit repository
(src/pkg/repository/audit.go) and the audit logger ingress
(src/pkg/utils/audit.go).

Modelling conventions: instants are Int (seconds since an arbitrary epoch);
Go time.After t1 t2 means t1 > t2, time.Before means t1 < t2.
Money and weight are rationals (the store declares DECIMAL(10,2)).
Fallible Go functions return Except. The relational orders table and the
Redis key space are association lists keyed by the order id.
-/

namespace PVZ

/-- Order states, seeded in the order_states table with
accepted, delivered, returned. -/
inductive OrderState
  | accepted
  | delivered
  | returned
deriving DecidableEq

/-- Package base types, seeded in the package_types table with
bag, box, film. -/
inductive PackageType
  | bag
  | box
  | film
deriving DecidableEq

/-- Wrapper types, seeded in the wrapper_types table with film. -/
inductive WrapperType
  | film
deriving DecidableEq

/-- Go model.Order as used by the service (literal at part_005 line 135)
and by the orders table of the relational schema. -/
structure Order where
  ID : Int
  CustomerID : Int
  State : OrderState
  Weight : ℚ
  Cost : ℚ
  PackageType : Option PackageType
  Wrapper : Option WrapperType
  DeadlineAt : Int
  UpdatedAt : Int
  DeliveredAt : Option Int := none
  ReturnedAt : Option Int := none
deriving DecidableEq

/-- Error kinds surfaced by the order service, the repository and the two
cache backends (the named error values of part_005, part_009, part_010 and
the packager files). -/
inductive ServiceError
  | invalidOrderID
  | invalidCustomerID
  | storageDeadlinePassed
  | orderExists
  | negativeWeight
  | negativeCost
  | unknownPackageType
  | unknownWrapperType
  | packageWeightExceeded
  | wrongCustomer
  | wrongState
  | storageExpired
  | notDelivered
  | returnExpired
  | orderAlreadyDelivered
  | deadlineNotExpired
  | orderNotFound
  | orderNotFoundInCache
  | orderExpiredInCache
  | orderNotCached
deriving DecidableEq

/-- Return window of the service: const ReturnedAt = 48 * time.Hour
(part_005 line 50), in seconds. -/
def returnedAtWindow : Int := 48 * 60 * 60

/-- Lookup in an association list keyed by Int. -/
def alistLookup {α : Type} : List (Int × α) → Int → Option α
  | [], _ => none
  | (k, v) :: rest, i => if k = i then some v else alistLookup rest i

/-- Removal of a key from an association list. -/
def alistErase {α : Type} : List (Int × α) → Int → List (Int × α)
  | [], _ => []
  | (k, v) :: rest, i =>
    if k = i then alistErase rest i else (k, v) :: alistErase rest i

/-- Insert-or-replace into an association list. -/
def alistInsert {α : Type} (m : List (Int × α)) (k : Int) (v : α) :
    List (Int × α) :=
  (k, v) :: alistErase m k

/-- Modelled from the spec: the concrete packagers (bag, box, film and the
wrapper decorator referenced by part_006) are not under src/; section 4.3
of the spec gives bag a 10 kg ceiling and +5 surcharge, box a 30 kg
ceiling and +20 surcharge, film no ceiling and +1 surcharge, and the film
wrapper a further +1 surcharge with re-validation of the weight against
the base ceiling. A packager is the base variant or the decorated one. -/
inductive Packager
  | base (t : PackageType)
  | wrapped (t : PackageType) (w : WrapperType)
deriving DecidableEq

/-- Modelled from the spec: surcharge of each base packager. -/
def baseAdditionalCost : PackageType → ℚ
  | .bag => 5
  | .box => 20
  | .film => 1

/-- Modelled from the spec: weight ceiling of each base packager. -/
def baseMaxWeight : PackageType → Option ℚ
  | .bag => some 10
  | .box => some 30
  | .film => none

/-- Modelled from the spec: getAdditionalCost of a packager; the wrapper
decorator adds one further unit on top of the base surcharge. -/
def Packager.getAdditionalCost : Packager → ℚ
  | .base t => baseAdditionalCost t
  | .wrapped t _ => baseAdditionalCost t + 1

/-- Modelled from the spec: validateWeight of a packager; the decorator
re-validates against the base ceiling. Returns true when the weight is
within the ceiling. -/
def Packager.validateWeightOk : Packager → ℚ → Bool
  | .base t, w =>
    match baseMaxWeight t with
    | none => true
    | some m => decide (w ≤ m)
  | .wrapped t _, w =>
    match baseMaxWeight t with
    | none => true
    | some m => decide (w ≤ m)

/-- createPackager of defaultPackagerFactory (part_006 lines 25 to 51):
nil base type is refused; a known base type yields the base packager,
decorated when a wrapper is given. The single known wrapper type is film,
so the decorator construction never fails here. -/
def createPackager (baseType : Option PackageType)
    (wrapper : Option WrapperType) : Except ServiceError Packager :=
  match baseType with
  | none => .error .unknownPackageType
  | some t =>
    match wrapper with
    | none => .ok (.base t)
    | some w => .ok (.wrapped t w)

/-- Observable side effects of one order-service operation, in program
order: repository writes, cache writes, and audit emissions through
LogOrderStatusChange. -/
inductive Effect
  | repoCreate (o : Order)
  | repoUpdate (o : Order)
  | repoDelete (id : Int)
  | cacheSet (o : Order)
  | cacheDelete (id : Int)
  | audit (orderID : Int) (oldStatus newStatus : String)
deriving DecidableEq

/-- Rendering of an order state as the audit status string
(string(order.State) in the Go code). -/
def stateString : OrderState → String
  | .accepted => "accepted"
  | .delivered => "delivered"
  | .returned => "returned"

/-- Combined persistent state seen by the order service: the orders table
and the order cache. The cache is modelled with the Redis backend
semantics of part_009 (key order:id holding the serialised order; delete
is idempotent). -/
structure SysState where
  repo : List (Int × Order)
  cache : List (Int × Order)
deriving DecidableEq

/-- GetByID of the order repository: the stored row, if any. -/
def repoGetByID (s : SysState) (id : Int) : Option Order :=
  alistLookup s.repo id

/-- Create of the order repository (order.go lines 42 to 99): validates
id and customer id locally (non-positive values are refused with the
invalid-id errors), then performs the row-locked existence check failing
with the already-exists error, then inserts the row. -/
def repoCreate (m : List (Int × Order)) (o : Order) :
    Except ServiceError (List (Int × Order)) :=
  if o.ID ≤ 0 then .error .invalidOrderID
  else if o.CustomerID ≤ 0 then .error .invalidCustomerID
  else
    match alistLookup m o.ID with
    | some _ => .error .orderExists
    | none => .ok (alistInsert m o.ID o)

/-- Update of the order repository: fails with not-found when the row
disappeared, otherwise overwrites every mutable column. -/
def repoUpdate (m : List (Int × Order)) (o : Order) :
    Except ServiceError (List (Int × Order)) :=
  match alistLookup m o.ID with
  | some _ => .ok (alistInsert m o.ID o)
  | none => .error .orderNotFound

/-- Delete of the order repository: row-locked existence check, then
removal; not-found otherwise. -/
def repoDelete (m : List (Int × Order)) (id : Int) :
    Except ServiceError (List (Int × Order)) :=
  match alistLookup m id with
  | some _ => .ok (alistErase m id)
  | none => .error .orderNotFound

/-- SetOrder of the Redis cache (part_009 lines 18 to 46): refuses an
order whose deadline already passed, otherwise stores it under its key. -/
def cacheSetOrder (c : List (Int × Order)) (o : Order) (now : Int) :
    Except ServiceError (List (Int × Order)) :=
  if now > o.DeadlineAt then .error .orderNotCached
  else .ok (alistInsert c o.ID o)

/-- GetOrder of the Redis cache (part_009 lines 52 to 83): absent key
gives the not-found-in-cache error; a present entry whose deadline passed
is deleted and the expired error returned; otherwise the order. The
second component is the cache after the call, the third the cache
mutations it performed. -/
def cacheGetOrder (c : List (Int × Order)) (id now : Int) :
    Except ServiceError Order × List (Int × Order) × List Effect :=
  match alistLookup c id with
  | none => (.error .orderNotFoundInCache, c, [])
  | some o =>
    if now > o.DeadlineAt then
      (.error .orderExpiredInCache, alistErase c id, [.cacheDelete id])
    else (.ok o, c, [])

/-- DeleteOrder of the Redis cache (part_009 lines 88 to 100): idempotent
removal of the key. -/
def cacheDeleteOrder (c : List (Int × Order)) (id : Int) :
    List (Int × Order) :=
  alistErase c id

/-- Read-through fetch shared by DeliverOrder, ProcessReturnOrder and
ReturnOrderToCourier (part_005): try the cache, fall back to the
repository on any cache error. -/
def fetchOrder (s : SysState) (id now : Int) :
    Option Order × SysState × List Effect :=
  match cacheGetOrder s.cache id now with
  | (.ok o, c1, tr) => (some o, { s with cache := c1 }, tr)
  | (.error _, c1, tr) => (repoGetByID s id, { s with cache := c1 }, tr)

/-- AcceptOrder of the order service (part_005 lines 93 to 163):
validations in program order, packaging surcharge, repository create,
cache set, audit emission. Returns the result, the state after the call
and the effect trace. -/
def acceptOrder (s : SysState) (id customerID : Int) (deadline : Int)
    (weight cost : ℚ) (packageType : Option PackageType)
    (wrapper : Option WrapperType) (now : Int) :
    Except ServiceError Unit × SysState × List Effect :=
  if id ≤ 0 then (.error .invalidOrderID, s, [])
  else if now > deadline then (.error .storageDeadlinePassed, s, [])
  else if (match repoGetByID s id with
           | some o => o.ID == id
           | none => false : Bool) then (.error .orderExists, s, [])
  else if weight ≤ 0 then (.error .negativeWeight, s, [])
  else if cost ≤ 0 then (.error .negativeCost, s, [])
  else
    match (match packageType with
           | none => Except.ok cost
           | some _ =>
             match createPackager packageType wrapper with
             | .error e => .error e
             | .ok p =>
               if p.validateWeightOk weight then
                 .ok (cost + p.getAdditionalCost)
               else .error .packageWeightExceeded :
           Except ServiceError ℚ) with
    | .error e => (.error e, s, [])
    | .ok finalCost =>
      let o : Order :=
        { ID := id, CustomerID := customerID, DeadlineAt := deadline,
          State := .accepted, UpdatedAt := now, Weight := weight,
          Cost := finalCost, PackageType := packageType,
          Wrapper := wrapper }
      match repoCreate s.repo o with
      | .error e => (.error e, s, [])
      | .ok r1 =>
        match cacheSetOrder s.cache o now with
        | .error e => (.error e, { s with repo := r1 }, [.repoCreate o])
        | .ok c1 =>
          (.ok (), { repo := r1, cache := c1 },
            [.repoCreate o, .cacheSet o,
             .audit id "none" (stateString o.State)])

/-- DeliverOrder of the order service (part_005 lines 209 to 260):
read-through fetch, customer check, state check, storage-deadline check,
then the transition to delivered with repository update, cache set and
audit emission. -/
def deliverOrder (s : SysState) (id customerID now : Int) :
    Except ServiceError Unit × SysState × List Effect :=
  match fetchOrder s id now with
  | (none, s1, tr) => (.error .orderNotFound, s1, tr)
  | (some order, s1, tr) =>
    if order.CustomerID ≠ customerID then (.error .wrongCustomer, s1, tr)
    else if order.State ≠ .accepted then (.error .wrongState, s1, tr)
    else if now > order.DeadlineAt then (.error .storageExpired, s1, tr)
    else
      let o2 : Order :=
        { order with State := .delivered, UpdatedAt := now,
                     DeliveredAt := some now }
      match repoUpdate s1.repo o2 with
      | .error e => (.error e, s1, tr)
      | .ok r1 =>
        match cacheSetOrder s1.cache o2 now with
        | .error e => (.error e, { s1 with repo := r1 },
                       tr ++ [.repoUpdate o2])
        | .ok c1 =>
          (.ok (), { repo := r1, cache := c1 },
            tr ++ [.repoUpdate o2, .cacheSet o2,
                   .audit id (stateString order.State)
                     (stateString o2.State)])

/-- ProcessReturnOrder of the order service (part_005 lines 263 to 311):
read-through fetch, customer check, delivered-state check, 48 hour return
window check, then the transition to returned with repository update,
cache removal and audit emission. The Go code dereferences
order.DeliveredAt, which is set whenever the state is delivered; the
model reads it with default 0. -/
def processReturnOrder (s : SysState) (id customerID now : Int) :
    Except ServiceError Unit × SysState × List Effect :=
  match fetchOrder s id now with
  | (none, s1, tr) => (.error .orderNotFound, s1, tr)
  | (some order, s1, tr) =>
    if order.CustomerID ≠ customerID then (.error .wrongCustomer, s1, tr)
    else if order.State ≠ .delivered then (.error .notDelivered, s1, tr)
    else if now - order.DeliveredAt.getD 0 > returnedAtWindow then
      (.error .returnExpired, s1, tr)
    else
      let o2 : Order :=
        { order with State := .returned, UpdatedAt := now,
                     ReturnedAt := some now }
      match repoUpdate s1.repo o2 with
      | .error e => (.error e, s1, tr)
      | .ok r1 =>
        (.ok (), { repo := r1, cache := cacheDeleteOrder s1.cache id },
          tr ++ [.repoUpdate o2, .cacheDelete id,
                 .audit id (stateString order.State)
                   (stateString o2.State)])

/-- ReturnOrderToCourier of the order service (part_005 lines 166 to
206): read-through fetch, delivered check, deadline check (skipped for
returned orders), then cache removal followed by repository removal and
audit emission with new status deleted. -/
def returnOrderToCourier (s : SysState) (id now : Int) :
    Except ServiceError Unit × SysState × List Effect :=
  match fetchOrder s id now with
  | (none, s1, tr) => (.error .orderNotFound, s1, tr)
  | (some order, s1, tr) =>
    if order.State = .delivered then
      (.error .orderAlreadyDelivered, s1, tr)
    else if now < order.DeadlineAt ∧ order.State ≠ .returned then
      (.error .deadlineNotExpired, s1, tr)
    else
      let c1 := cacheDeleteOrder s1.cache id
      match repoDelete s1.repo id with
      | .error e => (.error e, { s1 with cache := c1 },
                     tr ++ [.cacheDelete id])
      | .ok r1 =>
        (.ok (), { repo := r1, cache := c1 },
          tr ++ [.cacheDelete id, .repoDelete id,
                 .audit id (stateString order.State) "deleted"])

/-- Row of the JSON import file after parsing (readOrdersFromFile and
parseDeadline are in a service file not under src/; the loop body of
AcceptOrdersFromFile at part_005 lines 361 to 388 consumes the parsed
rows, so the model takes the parsed list directly). -/
structure ImportRow where
  id : Int
  customerID : Int
  deadline : Int
  weight : ℚ
  cost : ℚ
  packageType : Option PackageType
  wrapper : Option WrapperType
deriving DecidableEq

/-- Loop of AcceptOrdersFromFile (part_005 lines 361 to 388): each row is
accepted through AcceptOrder; failure stops the import; a successful
acceptance is followed by a second LogOrderStatusChange emission with old
status none and new status accepted. -/
def acceptOrdersFromFile (s : SysState) (rows : List ImportRow)
    (now : Int) : Except ServiceError Unit × SysState × List Effect :=
  match rows with
  | [] => (.ok (), s, [])
  | r :: rest =>
    match acceptOrder s r.id r.customerID r.deadline r.weight r.cost
        r.packageType r.wrapper now with
    | (.error e, s1, tr) => (.error e, s1, tr)
    | (.ok _, s1, tr) =>
      match acceptOrdersFromFile s1 rest now with
      | (res, s2, tr2) =>
        (res, s2, tr ++ [.audit r.id "none" (stateString .accepted)] ++ tr2)

/-- Task statuses of the task_status enum in the audit_tasks migration. -/
inductive TaskStatus
  | created
  | processing
  | completed
  | failed
  | noAttemptsLeft
deriving DecidableEq

/-- Row of the audit_tasks table (migration in src/unnamed/part_001;
attempts_left defaults to 3, status to CREATED). -/
structure AuditTask where
  id : Int
  logID : Int
  status : TaskStatus
  attemptsLeft : Int
  nextAttemptAfter : Option Int
  createdAt : Int
  updatedAt : Int
  completedAt : Option Int
  errorMessage : Option String
deriving DecidableEq

/-- Row update of MarkTaskFailed (src/pkg/repository/audit.go lines 144
to 153): the CASE conditions read the attempts_left value from before the
update, so the new status is FAILED with a retry two seconds out exactly
when the old attempts_left exceeds 1. -/
def markTaskFailedRow (t : AuditTask) (now : Int) (msg : String) :
    AuditTask :=
  { t with
    status := if t.attemptsLeft > 1 then .failed else .noAttemptsLeft,
    attemptsLeft := t.attemptsLeft - 1,
    nextAttemptAfter :=
      if t.attemptsLeft > 1 then some (now + 2) else none,
    updatedAt := now,
    errorMessage := some msg }

/-- MarkTaskFailed of PostgresAuditRepository (audit.go lines 128 to
161): existence check on the task id, then the single-row update; the
task store is the list of audit_tasks rows. -/
def markTaskFailed (tasks : List AuditTask) (taskID : Int) (now : Int)
    (msg : String) : Except ServiceError (List AuditTask) :=
  if tasks.any (fun t => t.id == taskID) then
    .ok (tasks.map (fun t =>
      if t.id == taskID then markTaskFailedRow t now msg else t))
  else .error .orderNotFound

/-- Dispatchability predicate of the FetchTasksIDs selection (audit.go
lines 63 to 76): status CREATED, or status FAILED with attempts left and
a next-attempt instant that is absent or has passed. -/
def dispatchable (now : Int) (t : AuditTask) : Bool :=
  t.status == .created ||
    (t.status == .failed && t.attemptsLeft > 0 &&
      (match t.nextAttemptAfter with
       | none => true
       | some a => a ≤ now))

/-- Tasks reserved by FetchTasksIDs: the dispatchable rows in created_at
ascending order, up to the limit. -/
def selectedTasks (tasks : List AuditTask) (limit : Nat) (now : Int) :
    List AuditTask :=
  ((tasks.filter (dispatchable now)).insertionSort
    (fun a b => a.createdAt ≤ b.createdAt)).take limit

/-- FetchTasksIDs of PostgresAuditRepository (audit.go lines 56 to 99):
reserves the selected tasks by setting status PROCESSING and updated_at,
returning their (task id, log id) pairs. -/
def fetchTasksIDs (tasks : List AuditTask) (limit : Nat) (now : Int) :
    List (Int × Int) × List AuditTask :=
  let sel := selectedTasks tasks limit now
  (sel.map (fun t => (t.id, t.logID)),
   tasks.map (fun t =>
     if sel.any (fun u => u.id == t.id) then
       { t with status := .processing, updatedAt := now }
     else t))

/-- Entry of the in-memory cache (part_010): the order together with the
absolute instant at which its TTL elapses. -/
structure InMemEntry where
  order : Order
  ttl : Int
deriving DecidableEq

/-- GetOrder of the in-memory cache (part_010 lines 245 to 286), absent a
cancelled scope: an absent id gives the not-found-in-cache error; a
present entry whose TTL elapsed or whose order deadline passed is removed
and the expired error returned; otherwise the order (the LRU promotion
does not change the map content). -/
def inmemGetOrder (c : List (Int × InMemEntry)) (id now : Int) :
    Except ServiceError Order × List (Int × InMemEntry) :=
  match alistLookup c id with
  | none => (.error .orderNotFoundInCache, c)
  | some e =>
    if now > e.ttl ∨ now > e.order.DeadlineAt then
      (.error .orderExpiredInCache, alistErase c id)
    else (.ok e.order, c)

/-- Event payload accepted by the audit logger (model.AuditLog as built
by LogOrderStatusChange in src/pkg/utils/audit.go). -/
structure AuditLogEvent where
  timestamp : Int
  orderID : Int
  oldStatus : String
  newStatus : String
deriving DecidableEq

/-- Capacity of the inbound mailbox: maxLogChanSize = 100
(src/pkg/utils/audit.go line 16). -/
def maxLogChanSize : Nat := 100

/-- State of the audit logger ingress: the bounded inbound mailbox and
the mutex-guarded overflow list. -/
structure LoggerState where
  mailbox : List AuditLogEvent
  overflow : List AuditLogEvent
deriving DecidableEq

/-- Log of AuditLogger (src/pkg/utils/audit.go lines 111 to 121) as a
step relation mirroring the Go select statement: the send case is ready
when the mailbox has space; the ctx.Done case is ready when the ambient
scope is cancelled and then drops the event; the default branch, taken
only when no case is ready, appends the event to the overflow list. -/
inductive LogStep (ctxDone : Bool) (s : LoggerState) (e : AuditLogEvent) :
    LoggerState → Prop
  | send (h : s.mailbox.length < maxLogChanSize) :
      LogStep ctxDone s e { s with mailbox := s.mailbox ++ [e] }
  | ctxDoneDrop (h : ctxDone = true) : LogStep ctxDone s e s
  | overflowPush (hm : ¬ s.mailbox.length < maxLogChanSize)
      (hc : ctxDone = false) :
      LogStep ctxDone s e { s with overflow := s.overflow ++ [e] }


/-- Predicate selecting cache-mutation effects. -/
def isCacheEff : Effect → Bool
  | .cacheSet _ => true
  | .cacheDelete _ => true
  | _ => false

/-- Predicate selecting repository-write effects. -/
def isRepoEff : Effect → Bool
  | .repoCreate _ => true
  | .repoUpdate _ => true
  | .repoDelete _ => true
  | _ => false

/-- Check that every cache mutation in a trace is preceded by a
repository write; the accumulator records whether a repository write has
been seen. -/
def cacheAfterRepoOnly : Bool → List Effect → Bool
  | _, [] => true
  | seen, eff :: rest =>
    if isCacheEff eff then seen && cacheAfterRepoOnly seen rest
    else cacheAfterRepoOnly (seen || isRepoEff eff) rest

/-- Number of ORDER_STATUS audit events in a trace carrying the given
order id, old status none and new status accepted. -/
def countNoneAccepted (i : Int) (tr : List Effect) : Nat :=
  (tr.filter (fun e =>
    match e with
    | .audit oid old new => oid == i && old == "none" && new == "accepted"
    | _ => false)).length

/-- Decidable equality on Except results, used to evaluate concrete
runs. -/
instance {ε α : Type} [DecidableEq ε] [DecidableEq α] :
    DecidableEq (Except ε α) :=
  fun a b =>
    match a, b with
    | .ok x, .ok y =>
      if h : x = y then isTrue (by rw [h])
      else isFalse (fun hh => h (Except.ok.inj hh))
    | .ok _, .error _ => isFalse (fun hh => Except.noConfusion hh)
    | .error _, .ok _ => isFalse (fun hh => Except.noConfusion hh)
    | .error x, .error y =>
      if h : x = y then isTrue (by rw [h])
      else isFalse (fun hh => h (Except.error.inj hh))

/-- Concrete accepted order with storage deadline at instant 100, used in
boundary and ordering checks. -/
def sampleAccepted : Order :=
  { ID := 1, CustomerID := 1, State := .accepted, Weight := 1, Cost := 1,
    PackageType := none, Wrapper := none, DeadlineAt := 100,
    UpdatedAt := 0 }

/-- Concrete delivered order with storage deadline at instant 10 and
delivery at instant 0, used in cache and return checks. -/
def sampleDelivered : Order :=
  { ID := 1, CustomerID := 1, State := .delivered, Weight := 1, Cost := 1,
    PackageType := none, Wrapper := none, DeadlineAt := 10, UpdatedAt := 0,
    DeliveredAt := some 0 }

/-- Concrete audit event used to fill the logger mailbox. -/
def eventA : AuditLogEvent :=
  { timestamp := 0, orderID := 1, oldStatus := "none",
    newStatus := "accepted" }

/-- Concrete audit event distinct from eventA. -/
def eventB : AuditLogEvent :=
  { timestamp := 1, orderID := 2, oldStatus := "accepted",
    newStatus := "delivered" }

/-- Logger state whose inbound mailbox is at capacity and whose overflow
list is empty. -/
def fullLogger : LoggerState :=
  { mailbox := List.replicate maxLogChanSize eventA, overflow := [] }


/-- System state holding only the sample accepted order in the store,
with an empty cache. -/
def deliverState : SysState :=
  { repo := [(1, sampleAccepted)], cache := [] }

/-- System state holding only the sample delivered order in the store,
with an empty cache. -/
def returnState : SysState :=
  { repo := [(1, sampleDelivered)], cache := [] }

/-- System state holding the sample accepted order in both the store and
the cache. -/
def courierState : SysState :=
  { repo := [(1, sampleAccepted)], cache := [(1, sampleAccepted)] }

/-- Concrete dispatch task with one attempt left, in FAILED status with
an elapsed next-attempt instant. -/
def taskA : AuditTask :=
  { id := 1, logID := 11, status := .failed, attemptsLeft := 1,
    nextAttemptAfter := some 5, createdAt := 0, updatedAt := 0,
    completedAt := none, errorMessage := none }

/-- Concrete import row used to exercise the file-import loop. -/
def rowA : ImportRow :=
  { id := 1, customerID := 1, deadline := 86400, weight := 5, cost := 100,
    packageType := none, wrapper := none }

/-
Theorems. The helper lemmas about association lists and the shared
read-through fetch come first, then one theorem per claim with its
witness or counterexample.
-/

theorem alistLookup_insert_self {α : Type} (m : List (Int × α)) (k : Int)
    (v : α) : alistLookup (alistInsert m k v) k = some v := by
  simp [alistInsert, alistLookup]

theorem alistLookup_erase {α : Type} (m : List (Int × α)) (k i : Int) :
    alistLookup (alistErase m k) i =
      if k = i then none else alistLookup m i := by
  induction m with
  | nil => simp [alistErase, alistLookup]
  | cons hd tl ih =>
    obtain ⟨k0, v0⟩ := hd
    by_cases hk : k0 = k
    · subst hk
      by_cases hi : k0 = i
      · subst hi
        simp [alistErase, alistLookup, ih]
      · simp [alistErase, alistLookup, hi, ih]
    · by_cases hi : k0 = i
      · subst hi
        simp [alistErase, alistLookup, hk, ih]
        intro h
        exact absurd h.symm hk
      · simp [alistErase, alistLookup, hk, hi, ih]

theorem alistLookup_insert_ne {α : Type} (m : List (Int × α)) (k i : Int)
    (v : α) (h : k ≠ i) :
    alistLookup (alistInsert m k v) i = alistLookup m i := by
  simp [alistInsert, alistLookup, h, alistLookup_erase]

theorem fetchOrder_coherent (s : SysState) (id now : Int) (o : Order)
    (hrepo : repoGetByID s id = some o)
    (hcoh : ∀ o2, alistLookup s.cache id = some o2 → o2 = o) :
    ∃ c1 tr, fetchOrder s id now = (some o, { s with cache := c1 }, tr) ∧
      (c1 = s.cache ∧ tr = [] ∨
       c1 = alistErase s.cache id ∧ tr = [.cacheDelete id]) := by
  unfold fetchOrder cacheGetOrder
  cases hc : alistLookup s.cache id with
  | none =>
    refine ⟨s.cache, [], ?_, Or.inl ⟨rfl, rfl⟩⟩
    simp [hrepo]
  | some o2 =>
    have ho2 : o2 = o := hcoh o2 hc
    subst ho2
    by_cases hexp : now > o2.DeadlineAt
    · refine ⟨alistErase s.cache id, [.cacheDelete id], ?_, Or.inr ⟨rfl, rfl⟩⟩
      simp [hexp, hrepo]
    · refine ⟨s.cache, [], ?_, Or.inl ⟨rfl, rfl⟩⟩
      simp [hexp]

/-- C1 counterexample: with id 1, customerId -1, a future deadline,
weight 5, cost 100, box packaging and film wrapper — every precondition
the claim lists — AcceptOrder fails with the repository invalid-customer
error instead of succeeding, because PostgresOrderRepository.Create
validates customer_id > 0 and AcceptOrder never checks it upstream. -/
theorem c1_counterexample :
    (0 : Int) < 1 ∧ (0 : Int) ≤ 86400 ∧
    repoGetByID { repo := [], cache := [] } 1 = none ∧
    (0 : ℚ) < 5 ∧ (0 : ℚ) < 100 ∧ (5 : ℚ) ≤ 30 ∧
    acceptOrder { repo := [], cache := [] } 1 (-1) 86400 5 100
        (some .box) (some .film) 0 =
      (.error .invalidCustomerID, { repo := [], cache := [] }, []) := by
  exact ⟨by decide, by decide, rfl, by norm_num, by norm_num, by norm_num,
    by decide⟩

/-- C1 amended: a call to AcceptOrder with a positive fresh id, a
positive customer id, a deadline not in the past, positive weight and
cost, box packaging within the 30 kg box ceiling and a film wrapper
succeeds and persists the order with state accepted, updated_at equal to
now and stored cost equal to the input cost plus 21 (box surcharge 20
plus film-wrapper surcharge 1). -/
theorem c1_acceptOrder_box_film_amended (s : SysState)
    (id customerID deadline : Int) (weight cost : ℚ) (now : Int)
    (hid : 0 < id) (hcid : 0 < customerID) (hdl : now ≤ deadline)
    (hfresh : repoGetByID s id = none)
    (hw : 0 < weight) (hc : 0 < cost) (hbox : weight ≤ 30) :
    ∃ s2 tr, acceptOrder s id customerID deadline weight cost
        (some .box) (some .film) now = (.ok (), s2, tr) ∧
      ∃ o, repoGetByID s2 id = some o ∧
        o.State = .accepted ∧ o.UpdatedAt = now ∧ o.Cost = cost + 21 := by
  have h1 : ¬ id ≤ 0 := by omega
  have h1c : ¬ customerID ≤ 0 := by omega
  have h2 : ¬ now > deadline := by omega
  have h4 : ¬ weight ≤ 0 := by linarith
  have h5 : ¬ cost ≤ 0 := by linarith
  have hwb : decide (weight ≤ 30) = true := decide_eq_true hbox
  have hfresh2 : alistLookup s.repo id = none := hfresh
  simp only [acceptOrder, h1, h1c, h2, h4, h5, hfresh2, repoGetByID,
    createPackager, Packager.validateWeightOk, baseMaxWeight,
    Packager.getAdditionalCost, baseAdditionalCost, hwb,
    repoCreate, cacheSetOrder, if_false, if_true, ite_false, ite_true]
  refine ⟨_, _, ⟨rfl, ?_⟩⟩
  refine ⟨_, alistLookup_insert_self _ _ _, rfl, rfl, ?_⟩
  norm_num

/-- Witness for C1 amended at the concrete happy-path input of the spec:
id 1, customer 1, deadline one day out, weight 5, cost 100, box plus
film. -/
theorem c1_acceptOrder_box_film_amended_witness :
    ∃ s2 tr, acceptOrder { repo := [], cache := [] } 1 1 86400 5 100
        (some .box) (some .film) 0 = (.ok (), s2, tr) ∧
      ∃ o, repoGetByID s2 1 = some o ∧
        o.State = .accepted ∧ o.UpdatedAt = 0 ∧ o.Cost = 100 + 21 :=
  c1_acceptOrder_box_film_amended { repo := [], cache := [] } 1 1 86400
    5 100 0 (by decide) (by decide) (by decide) rfl (by norm_num)
    (by norm_num) (by norm_num)

/-- C2: DeliverOrder on a stored order fails with WrongCustomer on a
customer mismatch, then with WrongState when the state is not accepted,
then with StorageExpired when now is past the deadline (delivery at
exactly the deadline succeeds); otherwise it transitions the stored order
to delivered with delivered_at and updated_at set to now. -/
theorem c2_deliverOrder (s : SysState) (id customerID now : Int)
    (o : Order)
    (hrepo : repoGetByID s id = some o) (hoid : o.ID = id)
    (hcoh : ∀ o2, alistLookup s.cache id = some o2 → o2 = o) :
    (o.CustomerID ≠ customerID →
       (deliverOrder s id customerID now).1 = .error .wrongCustomer) ∧
    (o.CustomerID = customerID → o.State ≠ .accepted →
       (deliverOrder s id customerID now).1 = .error .wrongState) ∧
    (o.CustomerID = customerID → o.State = .accepted →
       now > o.DeadlineAt →
       (deliverOrder s id customerID now).1 = .error .storageExpired) ∧
    (o.CustomerID = customerID → o.State = .accepted →
       now ≤ o.DeadlineAt →
       (deliverOrder s id customerID now).1 = .ok () ∧
       repoGetByID (deliverOrder s id customerID now).2.1 id =
         some { o with State := .delivered, UpdatedAt := now,
                        DeliveredAt := some now }) := by
  obtain ⟨c1, tr, hfetch, hc1⟩ := fetchOrder_coherent s id now o hrepo hcoh
  refine ⟨?_, ?_, ?_, ?_⟩
  · intro h
    simp [deliverOrder, hfetch, h]
  · intro h1 h2
    simp [deliverOrder, hfetch, h1, h2]
  · intro h1 h2 h3
    simp [deliverOrder, hfetch, h1, h2, h3]
  · intro h1 h2 h3
    have h3n : ¬ now > o.DeadlineAt := by omega
    have hup : alistLookup s.repo o.ID = some o := by rw [hoid]; exact hrepo
    constructor
    · simp [deliverOrder, hfetch, h1, h2, h3n, repoUpdate, hup, cacheSetOrder]
    · have hrepo2 : alistLookup s.repo id = some o := hrepo
      simp only [deliverOrder, hfetch]
      simp [h1, h2, h3n, repoUpdate, hup, cacheSetOrder, repoGetByID, hoid,
        hrepo2, alistLookup_insert_self]

/-- Witness for C2: delivery of the stored accepted order at instant 50,
before its deadline 100, succeeds and stores the delivered order. -/
theorem c2_deliverOrder_witness :
    (deliverOrder deliverState 1 1 50).1 = .ok () ∧
    repoGetByID (deliverOrder deliverState 1 1 50).2.1 1 =
      some { sampleAccepted with State := .delivered, UpdatedAt := 50,
                                 DeliveredAt := some 50 } :=
  (c2_deliverOrder deliverState 1 1 50 sampleAccepted rfl rfl
    (fun o2 h => by exact Option.noConfusion h)).2.2.2 rfl rfl (by decide)

/-- C3: ProcessReturnOrder on a stored order fails with WrongCustomer on
a customer mismatch, then with NotDelivered when the state is not
delivered, then with ReturnExpired when more than 48 hours passed since
delivery (a return at exactly 48 hours succeeds); otherwise it persists
the order as returned with returned_at set to now and removes the cache
entry for that order. -/
theorem c3_processReturnOrder (s : SysState) (id customerID now : Int)
    (o : Order) (dAt : Int)
    (hrepo : repoGetByID s id = some o) (hoid : o.ID = id)
    (hcoh : ∀ o2, alistLookup s.cache id = some o2 → o2 = o)
    (hdat : o.DeliveredAt = some dAt) :
    (o.CustomerID ≠ customerID →
       (processReturnOrder s id customerID now).1 = .error .wrongCustomer) ∧
    (o.CustomerID = customerID → o.State ≠ .delivered →
       (processReturnOrder s id customerID now).1 = .error .notDelivered) ∧
    (o.CustomerID = customerID → o.State = .delivered →
       now - dAt > returnedAtWindow →
       (processReturnOrder s id customerID now).1 = .error .returnExpired) ∧
    (o.CustomerID = customerID → o.State = .delivered →
       now - dAt ≤ returnedAtWindow →
       (processReturnOrder s id customerID now).1 = .ok () ∧
       repoGetByID (processReturnOrder s id customerID now).2.1 id =
         some { o with State := .returned, UpdatedAt := now,
                        ReturnedAt := some now } ∧
       alistLookup (processReturnOrder s id customerID now).2.1.cache id =
         none) := by
  obtain ⟨c1, tr, hfetch, hc1⟩ := fetchOrder_coherent s id now o hrepo hcoh
  refine ⟨?_, ?_, ?_, ?_⟩
  · intro h
    simp [processReturnOrder, hfetch, h]
  · intro h1 h2
    simp [processReturnOrder, hfetch, h1, h2]
  · intro h1 h2 h3
    simp [processReturnOrder, hfetch, h1, h2, hdat, h3]
  · intro h1 h2 h3
    have h3n : ¬ now - dAt > returnedAtWindow := by omega
    have hrepo2 : alistLookup s.repo id = some o := hrepo
    have hup : alistLookup s.repo o.ID = some o := by rw [hoid]; exact hrepo
    refine ⟨?_, ?_, ?_⟩
    · simp [processReturnOrder, hfetch, h1, h2, hdat, h3n, repoUpdate, hup]
    · simp only [processReturnOrder, hfetch]
      simp [h1, h2, hdat, h3n, repoUpdate, hup, hrepo2, repoGetByID, hoid,
        alistLookup_insert_self]
    · simp only [processReturnOrder, hfetch]
      rcases hc1 with ⟨hcc, htr⟩ | ⟨hcc, htr⟩ <;>
        simp [h1, h2, hdat, h3n, repoUpdate, hup, hrepo2, hoid,
          cacheDeleteOrder, alistLookup_erase]

/-- Witness for C3: a return of the stored delivered order at exactly the
48 hour boundary succeeds, persists the returned order and leaves no
cache entry. -/
theorem c3_processReturnOrder_witness :
    (processReturnOrder returnState 1 1 172800).1 = .ok () ∧
    repoGetByID (processReturnOrder returnState 1 1 172800).2.1 1 =
      some { sampleDelivered with State := .returned, UpdatedAt := 172800,
                                  ReturnedAt := some 172800 } ∧
    alistLookup (processReturnOrder returnState 1 1 172800).2.1.cache 1 =
      none :=
  (c3_processReturnOrder returnState 1 1 172800 sampleDelivered 0 rfl rfl
    (fun o2 h => by exact Option.noConfusion h) rfl
    ).2.2.2 rfl rfl (by decide)

/-- C4 counterexample: the stored accepted order has deadline 100; at
exactly now equal to the deadline the claim says the reclaim is rejected
with DeadlineNotExpired, but ReturnOrderToCourier succeeds and removes
the row. -/
theorem c4_counterexample :
    (returnOrderToCourier deliverState 1 100).1 = .ok () ∧
    (returnOrderToCourier deliverState 1 100).1 ≠
      .error .deadlineNotExpired ∧
    sampleAccepted.DeadlineAt = 100 ∧ sampleAccepted.State = .accepted := by
  refine ⟨?_, ?_, rfl, rfl⟩ <;> decide

/-- C4 amended: ReturnOrderToCourier on a stored order fails with
OrderAlreadyDelivered when the state is delivered, and, unless the state
is returned, fails with DeadlineNotExpired whenever now is strictly
before deadline_at (at exactly now equal to deadline_at the reclaim is
permitted); when it succeeds it removes the row from the store and the
entry from the cache. -/
theorem c4_returnOrderToCourier_amended (s : SysState) (id now : Int)
    (o : Order)
    (hrepo : repoGetByID s id = some o) (_hoid : o.ID = id)
    (hcoh : ∀ o2, alistLookup s.cache id = some o2 → o2 = o) :
    (o.State = .delivered →
       (returnOrderToCourier s id now).1 = .error .orderAlreadyDelivered) ∧
    (o.State ≠ .delivered → o.State ≠ .returned → now < o.DeadlineAt →
       (returnOrderToCourier s id now).1 = .error .deadlineNotExpired) ∧
    (o.State ≠ .delivered → (o.State = .returned ∨ o.DeadlineAt ≤ now) →
       (returnOrderToCourier s id now).1 = .ok () ∧
       repoGetByID (returnOrderToCourier s id now).2.1 id = none ∧
       alistLookup (returnOrderToCourier s id now).2.1.cache id = none) := by
  obtain ⟨c1, tr, hfetch, hc1⟩ := fetchOrder_coherent s id now o hrepo hcoh
  refine ⟨?_, ?_, ?_⟩
  · intro h
    simp [returnOrderToCourier, hfetch, h]
  · intro h1 h2 h3
    simp [returnOrderToCourier, hfetch, h1, h2, h3]
  · intro h1 h2
    have hrepo2 : alistLookup s.repo id = some o := hrepo
    have hcond : ¬ (now < o.DeadlineAt ∧ o.State ≠ .returned) := by
      rcases h2 with h2 | h2
      · intro hh
        exact hh.2 h2
      · intro hh
        omega
    refine ⟨?_, ?_, ?_⟩
    · simp [returnOrderToCourier, hfetch, h1, hcond, repoDelete, hrepo2]
    · simp only [returnOrderToCourier, hfetch]
      simp [h1, hcond, repoDelete, hrepo2, repoGetByID, alistLookup_erase]
    · simp only [returnOrderToCourier, hfetch]
      simp [h1, hcond, repoDelete, hrepo2, cacheDeleteOrder,
        alistLookup_erase]

/-- Witness for C4 amended: reclaim of the stored accepted order at
instant 150, past its deadline 100, succeeds and removes row and cache
entry. -/
theorem c4_returnOrderToCourier_amended_witness :
    (returnOrderToCourier courierState 1 150).1 = .ok () ∧
    repoGetByID (returnOrderToCourier courierState 1 150).2.1 1 = none ∧
    alistLookup (returnOrderToCourier courierState 1 150).2.1.cache 1 =
      none :=
  (c4_returnOrderToCourier_amended courierState 1 150 sampleAccepted rfl rfl
    (fun o2 h => by
      simpa [courierState, alistLookup, eq_comm] using h)
    ).2.2 (by decide) (Or.inr (by decide))

/-- C5: MarkTaskFailed on an existing task decrements attempts_left by
one; in the same update it sets status FAILED with next_attempt_after two
seconds out when the new attempts_left is positive, and otherwise status
NO_ATTEMPTS_LEFT with a null next_attempt_after; consequently, for a task
that still had attempts, the new status is NO_ATTEMPTS_LEFT exactly when
the new attempts_left is zero. -/
theorem c5_markTaskFailed (tasks : List AuditTask) (t : AuditTask)
    (now : Int) (msg : String)
    (hmem : t ∈ tasks) (hpos : 1 ≤ t.attemptsLeft) :
    ∃ tasks2, markTaskFailed tasks t.id now msg = .ok tasks2 ∧
      markTaskFailedRow t now msg ∈ tasks2 ∧
      (markTaskFailedRow t now msg).attemptsLeft = t.attemptsLeft - 1 ∧
      (0 < t.attemptsLeft - 1 →
        (markTaskFailedRow t now msg).status = .failed ∧
        (markTaskFailedRow t now msg).nextAttemptAfter = some (now + 2)) ∧
      (t.attemptsLeft - 1 ≤ 0 →
        (markTaskFailedRow t now msg).status = .noAttemptsLeft ∧
        (markTaskFailedRow t now msg).nextAttemptAfter = none) ∧
      ((markTaskFailedRow t now msg).status = .noAttemptsLeft ↔
        (markTaskFailedRow t now msg).attemptsLeft = 0) := by
  have hany : tasks.any (fun u => u.id == t.id) = true := by
    rw [List.any_eq_true]
    exact ⟨t, hmem, by simp⟩
  refine ⟨_, by rw [markTaskFailed, if_pos hany], ?_, rfl, ?_, ?_, ?_⟩
  · have hf : (fun u => if u.id == t.id then markTaskFailedRow u now msg
        else u) t = markTaskFailedRow t now msg := by simp
    exact hf ▸ List.mem_map_of_mem _ hmem
  · intro h
    have hgt : t.attemptsLeft > 1 := by omega
    simp [markTaskFailedRow, hgt]
  · intro h
    have hle : ¬ t.attemptsLeft > 1 := by omega
    simp [markTaskFailedRow, hle]
  · by_cases hgt : t.attemptsLeft > 1
    · simp only [markTaskFailedRow, if_pos hgt]
      constructor
      · intro h
        exact absurd h (by simp)
      · intro h
        omega
    · simp only [markTaskFailedRow, if_neg hgt]
      constructor
      · intro _
        omega
      · intro _
        trivial



/-- Witness for C5: failing the concrete task with one attempt left at
instant 10 exhausts it. -/
theorem c5_markTaskFailed_witness :
    ∃ tasks2, markTaskFailed [taskA] taskA.id 10 "publish failed" =
        .ok tasks2 ∧
      markTaskFailedRow taskA 10 "publish failed" ∈ tasks2 ∧
      (markTaskFailedRow taskA 10 "publish failed").attemptsLeft =
        taskA.attemptsLeft - 1 ∧
      (0 < taskA.attemptsLeft - 1 →
        (markTaskFailedRow taskA 10 "publish failed").status = .failed ∧
        (markTaskFailedRow taskA 10 "publish failed").nextAttemptAfter =
          some (10 + 2)) ∧
      (taskA.attemptsLeft - 1 ≤ 0 →
        (markTaskFailedRow taskA 10 "publish failed").status =
          .noAttemptsLeft ∧
        (markTaskFailedRow taskA 10 "publish failed").nextAttemptAfter =
          none) ∧
      ((markTaskFailedRow taskA 10 "publish failed").status =
          .noAttemptsLeft ↔
        (markTaskFailedRow taskA 10 "publish failed").attemptsLeft = 0) :=
  c5_markTaskFailed [taskA] taskA 10 "publish failed"
    (List.mem_singleton.mpr rfl) (by decide)

/-- C6: FetchTasksIDs returns task and log ids of dispatchable tasks only
(status CREATED, or FAILED with attempts left and an absent or elapsed
next-attempt instant), ordered by created_at ascending, up to the limit;
tasks in PROCESSING, COMPLETED or NO_ATTEMPTS_LEFT are never selected;
when the dispatchable tasks fit in the limit every one is selected; the
selected rows are marked PROCESSING in the updated store and the others
are unchanged. -/
theorem c6_fetchTasksIDs (tasks : List AuditTask) (limit : Nat) (now : Int)
    (hnodup : (tasks.map AuditTask.id).Nodup) :
    (∀ p ∈ (fetchTasksIDs tasks limit now).1,
       ∃ t ∈ tasks, t.id = p.1 ∧ t.logID = p.2 ∧
         (t.status = .created ∨
          (t.status = .failed ∧ 0 < t.attemptsLeft ∧
            (t.nextAttemptAfter = none ∨
             ∃ a, t.nextAttemptAfter = some a ∧ a ≤ now)))) ∧
    ((fetchTasksIDs tasks limit now).1.length =
       min limit (tasks.filter (dispatchable now)).length) ∧
    (selectedTasks tasks limit now).Sorted
      (fun a b => a.createdAt ≤ b.createdAt) ∧
    ((tasks.filter (dispatchable now)).length ≤ limit →
       ∀ t ∈ tasks, dispatchable now t = true →
         (t.id, t.logID) ∈ (fetchTasksIDs tasks limit now).1) ∧
    (∀ t ∈ tasks,
       (t.status = .processing ∨ t.status = .completed ∨
        t.status = .noAttemptsLeft) →
       (t.id, t.logID) ∉ (fetchTasksIDs tasks limit now).1) ∧
    (∀ t ∈ tasks, (t.id, t.logID) ∈ (fetchTasksIDs tasks limit now).1 →
       { t with status := .processing, updatedAt := now } ∈
         (fetchTasksIDs tasks limit now).2) ∧
    (∀ t ∈ tasks, (t.id, t.logID) ∉ (fetchTasksIDs tasks limit now).1 →
       t ∈ (fetchTasksIDs tasks limit now).2) := by
  classical
  haveI htot : IsTotal AuditTask (fun a b => a.createdAt ≤ b.createdAt) :=
    ⟨fun a b => Int.le_total a.createdAt b.createdAt⟩
  haveI htrans : IsTrans AuditTask (fun a b => a.createdAt ≤ b.createdAt) :=
    ⟨fun a b c hab hbc => le_trans hab hbc⟩
  have hselmem : ∀ t, t ∈ selectedTasks tasks limit now →
      t ∈ tasks ∧ dispatchable now t = true := by
    intro t ht
    have h1 : t ∈ (tasks.filter (dispatchable now)).insertionSort
        (fun a b => a.createdAt ≤ b.createdAt) := List.mem_of_mem_take ht
    have h2 : t ∈ tasks.filter (dispatchable now) :=
      (List.mem_insertionSort _).mp h1
    exact ⟨List.mem_of_mem_filter h2, List.of_mem_filter h2⟩
  have hdisp : ∀ t, dispatchable now t = true ↔
      (t.status = .created ∨
       (t.status = .failed ∧ 0 < t.attemptsLeft ∧
         (t.nextAttemptAfter = none ∨
          ∃ a, t.nextAttemptAfter = some a ∧ a ≤ now))) := by
    intro t
    unfold dispatchable
    cases hna : t.nextAttemptAfter with
    | none => simp [hna]
    | some a => simp [hna, and_assoc]
  refine ⟨?_, ?_, ?_, ?_, ?_, ?_, ?_⟩
  · intro p hp
    simp only [fetchTasksIDs, List.mem_map] at hp
    obtain ⟨t, ht, hpt⟩ := hp
    obtain ⟨htm, htd⟩ := hselmem t ht
    exact ⟨t, htm, by rw [← hpt], by rw [← hpt], (hdisp t).mp htd⟩
  · simp only [fetchTasksIDs, List.length_map, selectedTasks,
      List.length_take]
    rw [List.Perm.length_eq (List.perm_insertionSort _ _)]
  · have hs := List.sorted_insertionSort
      (fun a b : AuditTask => a.createdAt ≤ b.createdAt)
      (tasks.filter (dispatchable now))
    exact hs.sublist (List.take_sublist _ _)
  · intro hle t htm htd
    have hlen : ((tasks.filter (dispatchable now)).insertionSort
        (fun a b => a.createdAt ≤ b.createdAt)).length ≤ limit := by
      rw [List.Perm.length_eq (List.perm_insertionSort _ _)]
      exact hle
    have hall : selectedTasks tasks limit now =
        (tasks.filter (dispatchable now)).insertionSort
          (fun a b => a.createdAt ≤ b.createdAt) :=
      List.take_of_length_le hlen
    have htf : t ∈ tasks.filter (dispatchable now) :=
      List.mem_filter.mpr ⟨htm, htd⟩
    have hts : t ∈ selectedTasks tasks limit now := by
      rw [hall]
      exact (List.mem_insertionSort _).mpr htf
    simpa only [fetchTasksIDs] using List.mem_map_of_mem _ hts
  · intro t htm hst hmem
    simp only [fetchTasksIDs, List.mem_map] at hmem
    obtain ⟨u, hu, hup⟩ := hmem
    obtain ⟨hum, hud⟩ := hselmem u hu
    have hid : u.id = t.id := congrArg Prod.fst hup
    have : u = t := List.inj_on_of_nodup_map hnodup hum htm hid
    subst this
    rcases hst with h | h | h <;> simp [dispatchable, h] at hud
  · intro t htm hmem
    simp only [fetchTasksIDs, List.mem_map] at hmem ⊢
    obtain ⟨u, hu, hup⟩ := hmem
    have hany : (selectedTasks tasks limit now).any
        (fun v => v.id == t.id) = true := by
      rw [List.any_eq_true]
      have hid : u.id = t.id := congrArg Prod.fst hup
      exact ⟨u, hu, by simp [hid]⟩
    refine ⟨t, htm, ?_⟩
    simp [hany]
  · intro t htm hmem
    simp only [fetchTasksIDs, List.mem_map] at hmem
    have hany : (selectedTasks tasks limit now).any
        (fun v => v.id == t.id) = false := by
      rw [List.any_eq_false]
      intro u hu
      simp only [beq_iff_eq]
      intro hid
      obtain ⟨hum, _⟩ := hselmem u hu
      have : u = t := List.inj_on_of_nodup_map hnodup hum htm hid
      subst this
      exact hmem ⟨u, hu, rfl⟩
    simp only [fetchTasksIDs, List.mem_map]
    refine ⟨t, htm, ?_⟩
    simp [hany]


/-- Witness for C6: with the single dispatchable concrete task and limit
one at instant 10, exactly one pair is returned. -/
theorem c6_fetchTasksIDs_witness :
    (fetchTasksIDs [taskA] 1 10).1.length =
      min 1 (([taskA].filter (dispatchable 10)).length) :=
  (c6_fetchTasksIDs [taskA] 1 10 (by decide)).2.1


/-- C7 counterexample: in the in-memory backend an entry whose TTL
elapsed (ttl 5, now 7) is treated as expired and removed even though now
is before the order deadline (10), so getOrder does not return the stored
order as the claim requires. -/
theorem c7_counterexample :
    alistLookup [(1, InMemEntry.mk sampleDelivered 5)] 1 =
      some (InMemEntry.mk sampleDelivered 5) ∧
    (7 : Int) ≤ sampleDelivered.DeadlineAt ∧
    (inmemGetOrder [(1, InMemEntry.mk sampleDelivered 5)] 1 7).1 ≠
      .ok sampleDelivered ∧
    (inmemGetOrder [(1, InMemEntry.mk sampleDelivered 5)] 1 7) =
      (.error .orderExpiredInCache, []) := by
  refine ⟨by decide, by decide, by decide, by decide⟩

/-- C7 amended: for both cache backends getOrder has exactly three
mutually exclusive outcomes: the stored order when the entry is present
and unexpired, the Expired error with removal of the entry when it is
present but expired, and the NotFoundInCache error when absent — where
expired means now past the order deadline for the remote backend, and now
past the entry TTL or past the order deadline for the in-memory
backend. -/
theorem c7_getOrder_amended (c : List (Int × Order))
    (ci : List (Int × InMemEntry)) (id now : Int) :
    (alistLookup c id = none →
       cacheGetOrder c id now = (.error .orderNotFoundInCache, c, [])) ∧
    (∀ o, alistLookup c id = some o → now ≤ o.DeadlineAt →
       cacheGetOrder c id now = (.ok o, c, [])) ∧
    (∀ o, alistLookup c id = some o → now > o.DeadlineAt →
       cacheGetOrder c id now =
         (.error .orderExpiredInCache, alistErase c id,
          [.cacheDelete id])) ∧
    (alistLookup ci id = none →
       inmemGetOrder ci id now = (.error .orderNotFoundInCache, ci)) ∧
    (∀ e, alistLookup ci id = some e → now ≤ e.ttl →
       now ≤ e.order.DeadlineAt →
       inmemGetOrder ci id now = (.ok e.order, ci)) ∧
    (∀ e, alistLookup ci id = some e →
       (now > e.ttl ∨ now > e.order.DeadlineAt) →
       inmemGetOrder ci id now =
         (.error .orderExpiredInCache, alistErase ci id)) := by
  refine ⟨?_, ?_, ?_, ?_, ?_, ?_⟩
  · intro h
    simp [cacheGetOrder, h]
  · intro o h hle
    have : ¬ now > o.DeadlineAt := by omega
    simp [cacheGetOrder, h, this]
  · intro o h hgt
    simp [cacheGetOrder, h, hgt]
  · intro h
    simp [inmemGetOrder, h]
  · intro e h h1 h2
    have : ¬ (now > e.ttl ∨ now > e.order.DeadlineAt) := by
      push_neg
      exact ⟨h1, h2⟩
    simp [inmemGetOrder, h, this]
  · intro e h hd
    simp [inmemGetOrder, h, hd]

/-- Witness for C7 amended: concrete calls on both backends with a
present unexpired entry return the stored order. -/
theorem c7_getOrder_amended_witness :
    cacheGetOrder [(1, sampleAccepted)] 1 50 =
      (.ok sampleAccepted, [(1, sampleAccepted)], []) ∧
    inmemGetOrder [(1, InMemEntry.mk sampleDelivered 9)] 1 3 =
      (.ok sampleDelivered, [(1, InMemEntry.mk sampleDelivered 9)]) :=
  ⟨(c7_getOrder_amended [(1, sampleAccepted)]
      [(1, InMemEntry.mk sampleDelivered 9)] 1 50).2.1
      sampleAccepted (by decide) (by decide),
   (c7_getOrder_amended [(1, sampleAccepted)]
      [(1, InMemEntry.mk sampleDelivered 9)] 1 3).2.2.2.2.1
      (InMemEntry.mk sampleDelivered 9) (by decide) (by decide)
      (by decide)⟩

/-- C8 counterexample: with the ambient scope cancelled and the mailbox
full, the only step Log can take drops the event: it lands neither in the
mailbox nor in the overflow list. -/
theorem c8_counterexample :
    LogStep true fullLogger eventB fullLogger ∧
    eventB ∉ fullLogger.mailbox ∧
    eventB ∉ fullLogger.overflow ∧
    (∀ s2, LogStep true fullLogger eventB s2 → s2 = fullLogger) := by
  refine ⟨.ctxDoneDrop rfl, ?_, ?_, ?_⟩
  · intro h
    rw [fullLogger] at h
    have := (List.eq_of_mem_replicate h)
    exact absurd this (by decide)
  · simp [fullLogger]
  · intro s2 h
    cases h with
    | send hlt =>
      exact absurd hlt (by simp [fullLogger])
    | ctxDoneDrop h => rfl
    | overflowPush hm hc => exact Bool.noConfusion hc

/-- C8 amended: provided the ambient scope is not cancelled, Log always
has a step (it never blocks), and that step delivers the event into the
mailbox when its length is below the capacity of 100 and otherwise
appends the event to the overflow list; no event is discarded. -/
theorem c8_logStep_amended (s : LoggerState) (e : AuditLogEvent)
    (s2 : LoggerState) :
    (∃ s3, LogStep false s e s3) ∧
    (LogStep false s e s2 →
      (s.mailbox.length < maxLogChanSize ∧
        s2 = { s with mailbox := s.mailbox ++ [e] }) ∨
      (¬ s.mailbox.length < maxLogChanSize ∧
        s2 = { s with overflow := s.overflow ++ [e] })) := by
  constructor
  · by_cases h : s.mailbox.length < maxLogChanSize
    · exact ⟨_, .send h⟩
    · exact ⟨_, .overflowPush h rfl⟩
  · intro h
    cases h with
    | send h => exact Or.inl ⟨h, rfl⟩
    | ctxDoneDrop h => exact Bool.noConfusion h
    | overflowPush hm hc => exact Or.inr ⟨hm, rfl⟩

/-- Witness for C8 amended: from the empty logger state the concrete send
step is classified as a delivery into the mailbox. -/
theorem c8_logStep_amended_witness :
    ((LoggerState.mk [] []).mailbox.length < maxLogChanSize ∧
      LoggerState.mk [eventA] [] =
        { LoggerState.mk [] [] with
          mailbox := (LoggerState.mk [] []).mailbox ++ [eventA] }) ∨
    (¬ (LoggerState.mk [] []).mailbox.length < maxLogChanSize ∧
      LoggerState.mk [eventA] [] =
        { LoggerState.mk [] [] with
          overflow := (LoggerState.mk [] []).overflow ++ [eventA] }) :=
  (c8_logStep_amended (LoggerState.mk [] []) eventA
      (LoggerState.mk [eventA] [])).2
    (LogStep.send (by decide))


theorem acceptOrder_shape (s : SysState) (id customerID deadline : Int)
    (weight cost : ℚ) (pt : Option PackageType) (w : Option WrapperType)
    (now : Int) :
    (∃ e, acceptOrder s id customerID deadline weight cost pt w now =
       (.error e, s, [])) ∨
    (∃ e o, acceptOrder s id customerID deadline weight cost pt w now =
       (.error e, { s with repo := alistInsert s.repo id o },
        [.repoCreate o]) ∧ o.ID = id) ∨
    (∃ o, acceptOrder s id customerID deadline weight cost pt w now =
       (.ok (), { repo := alistInsert s.repo id o,
                  cache := alistInsert s.cache id o },
        [.repoCreate o, .cacheSet o, .audit id "none" "accepted"]) ∧
       o.ID = id ∧ alistLookup s.repo id = none) := by
  unfold acceptOrder
  split
  · exact Or.inl ⟨_, rfl⟩
  · split
    · exact Or.inl ⟨_, rfl⟩
    · split
      · exact Or.inl ⟨_, rfl⟩
      · split
        · exact Or.inl ⟨_, rfl⟩
        · split
          · exact Or.inl ⟨_, rfl⟩
          · split
            · exact Or.inl ⟨_, rfl⟩
            · rename_i fc hfc
              dsimp only
              unfold repoCreate
              split
              · exact Or.inl ⟨_, rfl⟩
              · rename_i r1 hr1
                split at hr1
                · exact absurd hr1 (by simp)
                · split at hr1
                  · exact absurd hr1 (by simp)
                  · split at hr1
                    · exact absurd hr1 (by simp)
                    · rename_i hnone
                      injection hr1 with hr1e
                      subst hr1e
                      unfold cacheSetOrder
                      split
                      · exact Or.inr (Or.inl ⟨_,
                          { ID := id, CustomerID := customerID,
                            State := .accepted, Weight := weight,
                            Cost := fc, PackageType := pt, Wrapper := w,
                            DeadlineAt := deadline, UpdatedAt := now },
                          rfl, rfl⟩)
                      · rename_i c1 hc1
                        split at hc1
                        · exact absurd hc1 (by simp)
                        · injection hc1 with hc1e
                          subst hc1e
                          exact Or.inr (Or.inr ⟨
                            { ID := id, CustomerID := customerID,
                              State := .accepted, Weight := weight,
                              Cost := fc, PackageType := pt, Wrapper := w,
                              DeadlineAt := deadline, UpdatedAt := now },
                            rfl, rfl, hnone⟩)


theorem acceptOrder_ok_inv (s : SysState) (id customerID deadline : Int)
    (weight cost : ℚ) (pt : Option PackageType) (w : Option WrapperType)
    (now : Int) (s2 : SysState) (tr : List Effect)
    (h : acceptOrder s id customerID deadline weight cost pt w now =
      (.ok (), s2, tr)) :
    ∃ o, o.ID = id ∧ alistLookup s.repo id = none ∧
      s2 = { repo := alistInsert s.repo id o,
             cache := alistInsert s.cache id o } ∧
      tr = [.repoCreate o, .cacheSet o, .audit id "none" "accepted"] := by
  rcases acceptOrder_shape s id customerID deadline weight cost pt w now with
    ⟨e, he⟩ | ⟨e, o, he, hoid⟩ | ⟨o, he, hoid, hnone⟩
  · rw [he] at h
    exact absurd h (by simp)
  · rw [he] at h
    exact absurd h (by simp)
  · rw [he] at h
    rw [Prod.mk.injEq, Prod.mk.injEq] at h
    exact ⟨o, hoid, hnone, h.2.1.symm, h.2.2.symm⟩

theorem fetchOrder_shape (s : SysState) (id now : Int) :
    (fetchOrder s id now).2.2 = [] ∨
    (fetchOrder s id now).2.2 = [.cacheDelete id] := by
  unfold fetchOrder cacheGetOrder
  cases hc : alistLookup s.cache id with
  | none => simp
  | some o =>
    by_cases h : now > o.DeadlineAt <;> simp [h]

theorem deliverOrder_ok_shape (s : SysState) (id customerID now : Int)
    (s2 : SysState) (tr : List Effect)
    (h : deliverOrder s id customerID now = (.ok (), s2, tr)) :
    ∃ pre o2 old, (pre = [] ∨ pre = [.cacheDelete id]) ∧
      tr = pre ++ [.repoUpdate o2, .cacheSet o2,
                   .audit id old "delivered"] := by
  have hft := fetchOrder_shape s id now
  unfold deliverOrder at h
  rcases hf : fetchOrder s id now with ⟨oo, s1, tr0⟩
  rw [hf] at h hft
  cases oo with
  | none => exact absurd h (by simp)
  | some order =>
    simp only at h hft
    split at h
    · exact absurd h (by simp)
    · split at h
      · exact absurd h (by simp)
      · split at h
        · exact absurd h (by simp)
        · split at h
          · exact absurd h (by simp)
          · split at h
            · exact absurd h (by simp)
            · rw [Prod.mk.injEq, Prod.mk.injEq] at h
              exact ⟨tr0, _, stateString order.State, hft, h.2.2.symm⟩

theorem processReturnOrder_ok_shape (s : SysState) (id customerID now : Int)
    (s2 : SysState) (tr : List Effect)
    (h : processReturnOrder s id customerID now = (.ok (), s2, tr)) :
    ∃ pre o2 old, (pre = [] ∨ pre = [.cacheDelete id]) ∧
      tr = pre ++ [.repoUpdate o2, .cacheDelete id,
                   .audit id old "returned"] := by
  have hft := fetchOrder_shape s id now
  unfold processReturnOrder at h
  rcases hf : fetchOrder s id now with ⟨oo, s1, tr0⟩
  rw [hf] at h hft
  cases oo with
  | none => exact absurd h (by simp)
  | some order =>
    simp only at h hft
    split at h
    · exact absurd h (by simp)
    · split at h
      · exact absurd h (by simp)
      · split at h
        · exact absurd h (by simp)
        · split at h
          · exact absurd h (by simp)
          · rw [Prod.mk.injEq, Prod.mk.injEq] at h
            exact ⟨tr0, _, stateString order.State, hft, h.2.2.symm⟩

theorem returnOrderToCourier_ok_shape (s : SysState) (id now : Int)
    (s2 : SysState) (tr : List Effect)
    (h : returnOrderToCourier s id now = (.ok (), s2, tr)) :
    ∃ pre old, (pre = [] ∨ pre = [.cacheDelete id]) ∧
      tr = pre ++ [.cacheDelete id, .repoDelete id,
                   .audit id old "deleted"] := by
  have hft := fetchOrder_shape s id now
  unfold returnOrderToCourier at h
  rcases hf : fetchOrder s id now with ⟨oo, s1, tr0⟩
  rw [hf] at h hft
  cases oo with
  | none => exact absurd h (by simp)
  | some order =>
    simp only at h hft
    split at h
    · exact absurd h (by simp)
    · split at h
      · exact absurd h (by simp)
      · split at h
        · exact absurd h (by simp)
        · rw [Prod.mk.injEq, Prod.mk.injEq] at h
          exact ⟨tr0, stateString order.State, hft, h.2.2.symm⟩


/-- C9 counterexample: ReturnOrderToCourier on a stored expired order
succeeds with a trace that removes the cache entry before the repository
delete, so the cache is mutated for that order before the store write. -/
theorem c9_counterexample :
    (returnOrderToCourier deliverState 1 150).1 = .ok () ∧
    (returnOrderToCourier deliverState 1 150).2.2 =
      [.cacheDelete 1, .repoDelete 1, .audit 1 "accepted" "deleted"] ∧
    cacheAfterRepoOnly false
      (returnOrderToCourier deliverState 1 150).2.2 = false := by
  refine ⟨by decide, by decide, by decide⟩

/-- C9 amended: in every successful AcceptOrder, DeliverOrder and
ProcessReturnOrder run the cache write of the operation immediately
follows the repository write and precedes the audit emission, except that
the read-through fetch may first evict an already-expired cache entry; in
every successful ReturnOrderToCourier run the cache entry is removed
immediately before the repository delete; in all four operations the
audit event is emitted last. -/
theorem c9_effectOrder_amended :
    (∀ s id customerID deadline weight cost pt w now s2 tr,
       acceptOrder s id customerID deadline weight cost pt w now =
         (.ok (), s2, tr) →
       ∃ o, tr = [.repoCreate o, .cacheSet o,
                  .audit id "none" "accepted"]) ∧
    (∀ s id customerID now s2 tr,
       deliverOrder s id customerID now = (.ok (), s2, tr) →
       ∃ pre o2 old, (pre = [] ∨ pre = [.cacheDelete id]) ∧
         tr = pre ++ [.repoUpdate o2, .cacheSet o2,
                      .audit id old "delivered"]) ∧
    (∀ s id customerID now s2 tr,
       processReturnOrder s id customerID now = (.ok (), s2, tr) →
       ∃ pre o2 old, (pre = [] ∨ pre = [.cacheDelete id]) ∧
         tr = pre ++ [.repoUpdate o2, .cacheDelete id,
                      .audit id old "returned"]) ∧
    (∀ s id now s2 tr,
       returnOrderToCourier s id now = (.ok (), s2, tr) →
       ∃ pre old, (pre = [] ∨ pre = [.cacheDelete id]) ∧
         tr = pre ++ [.cacheDelete id, .repoDelete id,
                      .audit id old "deleted"]) := by
  refine ⟨?_, ?_, ?_, ?_⟩
  · intro s id customerID deadline weight cost pt w now s2 tr h
    obtain ⟨o, -, -, -, htr⟩ :=
      acceptOrder_ok_inv s id customerID deadline weight cost pt w now
        s2 tr h
    exact ⟨o, htr⟩
  · intro s id customerID now s2 tr h
    exact deliverOrder_ok_shape s id customerID now s2 tr h
  · intro s id customerID now s2 tr h
    exact processReturnOrder_ok_shape s id customerID now s2 tr h
  · intro s id now s2 tr h
    exact returnOrderToCourier_ok_shape s id now s2 tr h

/-- Witness for C9 amended: a concrete successful AcceptOrder run has the
repository create, the cache set and the audit emission in that order. -/
theorem c9_effectOrder_amended_witness :
    ∃ o, (acceptOrder { repo := [], cache := [] } 1 1 86400 5 100
        none none 0).2.2 =
      [.repoCreate o, .cacheSet o, .audit 1 "none" "accepted"] :=
  c9_effectOrder_amended.1 { repo := [], cache := [] } 1 1 86400 5 100
    none none 0
    (acceptOrder { repo := [], cache := [] } 1 1 86400 5 100
      none none 0).2.1
    (acceptOrder { repo := [], cache := [] } 1 1 86400 5 100
      none none 0).2.2
    (by rfl)


theorem countNoneAccepted_append (i : Int) (t1 t2 : List Effect) :
    countNoneAccepted i (t1 ++ t2) =
      countNoneAccepted i t1 + countNoneAccepted i t2 := by
  simp [countNoneAccepted, List.filter_append]

theorem countNoneAccepted_accept_trace (i id : Int) (o : Order) :
    countNoneAccepted i
      [.repoCreate o, .cacheSet o, .audit id "none" "accepted"] =
      if id = i then 1 else 0 := by
  by_cases h : id = i <;> simp [countNoneAccepted, h]

theorem countNoneAccepted_single (i id : Int) :
    countNoneAccepted i [.audit id "none" "accepted"] =
      if id = i then 1 else 0 := by
  by_cases h : id = i <;> simp [countNoneAccepted, h]

theorem acceptOrdersFromFile_cons_ok (s : SysState) (r : ImportRow)
    (rest : List ImportRow) (now : Int) (s1 : SysState) (tr : List Effect)
    (ha : acceptOrder s r.id r.customerID r.deadline r.weight r.cost
      r.packageType r.wrapper now = (.ok (), s1, tr)) :
    acceptOrdersFromFile s (r :: rest) now =
      ((acceptOrdersFromFile s1 rest now).1,
       (acceptOrdersFromFile s1 rest now).2.1,
       tr ++ [.audit r.id "none" "accepted"] ++
         (acceptOrdersFromFile s1 rest now).2.2) := by
  simp only [acceptOrdersFromFile]
  rw [ha]
  rfl

theorem acceptOrdersFromFile_cons_err (s : SysState) (r : ImportRow)
    (rest : List ImportRow) (now : Int) (e : ServiceError) (s1 : SysState)
    (tr : List Effect)
    (ha : acceptOrder s r.id r.customerID r.deadline r.weight r.cost
      r.packageType r.wrapper now = (.error e, s1, tr)) :
    acceptOrdersFromFile s (r :: rest) now = (.error e, s1, tr) := by
  simp only [acceptOrdersFromFile]
  rw [ha]

theorem acceptOrdersFromFile_count_zero (rows : List ImportRow)
    (s : SysState) (now : Int) (i : Int)
    (hocc : (alistLookup s.repo i).isSome = true)
    (hok : (acceptOrdersFromFile s rows now).1 = .ok ()) :
    countNoneAccepted i (acceptOrdersFromFile s rows now).2.2 = 0 := by
  induction rows generalizing s with
  | nil => simp [acceptOrdersFromFile, countNoneAccepted]
  | cons r rest ih =>
    rcases ha : acceptOrder s r.id r.customerID r.deadline r.weight r.cost
      r.packageType r.wrapper now with ⟨res, s1, tr⟩
    cases res with
    | error e =>
      rw [acceptOrdersFromFile_cons_err s r rest now e s1 tr ha] at hok
      exact absurd hok (by simp)
    | ok u =>
      cases u
      obtain ⟨o, hoid, hnone, hs1, htr⟩ :=
        acceptOrder_ok_inv s r.id r.customerID r.deadline r.weight r.cost
          r.packageType r.wrapper now s1 tr ha
      have hne : r.id ≠ i := by
        intro hri
        rw [hri] at hnone
        rw [hnone] at hocc
        exact absurd hocc (by simp)
      have hexp := acceptOrdersFromFile_cons_ok s r rest now s1 tr ha
      rw [hexp] at hok ⊢
      simp only at hok ⊢
      have hocc1 : (alistLookup s1.repo i).isSome = true := by
        rw [hs1]
        simp only
        rw [alistLookup_insert_ne s.repo r.id i o hne]
        exact hocc
      rw [countNoneAccepted_append, countNoneAccepted_append, htr,
        countNoneAccepted_accept_trace, countNoneAccepted_single,
        ih s1 hocc1 hok]
      simp [hne]

theorem acceptOrdersFromFile_count_two (rows : List ImportRow)
    (s : SysState) (now : Int) (r : ImportRow)
    (hok : (acceptOrdersFromFile s rows now).1 = .ok ())
    (hr : r ∈ rows) :
    countNoneAccepted r.id (acceptOrdersFromFile s rows now).2.2 = 2 := by
  induction rows generalizing s with
  | nil => cases hr
  | cons r0 rest ih =>
    rcases ha : acceptOrder s r0.id r0.customerID r0.deadline r0.weight
      r0.cost r0.packageType r0.wrapper now with ⟨res, s1, tr⟩
    cases res with
    | error e =>
      rw [acceptOrdersFromFile_cons_err s r0 rest now e s1 tr ha] at hok
      exact absurd hok (by simp)
    | ok u =>
      cases u
      obtain ⟨o, hoid, hnone, hs1, htr⟩ :=
        acceptOrder_ok_inv s r0.id r0.customerID r0.deadline r0.weight
          r0.cost r0.packageType r0.wrapper now s1 tr ha
      have hexp := acceptOrdersFromFile_cons_ok s r0 rest now s1 tr ha
      rw [hexp] at hok ⊢
      simp only at hok ⊢
      rcases List.mem_cons.mp hr with heq | hmem
      · subst heq
        have hocc1 : (alistLookup s1.repo r.id).isSome = true := by
          rw [hs1]
          simp only
          rw [alistLookup_insert_self]
          rfl
        rw [countNoneAccepted_append, countNoneAccepted_append, htr,
          countNoneAccepted_accept_trace, countNoneAccepted_single,
          acceptOrdersFromFile_count_zero rest s1 now r.id hocc1 hok]
        simp
      · have h2 := ih s1 hok hmem
        have hne : r0.id ≠ r.id := by
          intro hq
          have hocc1 : (alistLookup s1.repo r.id).isSome = true := by
            rw [hs1]
            simp only
            rw [← hq, alistLookup_insert_self]
            rfl
          have h0 := acceptOrdersFromFile_count_zero rest s1 now r.id
            hocc1 hok
          rw [h0] at h2
          exact absurd h2 (by simp)
        rw [countNoneAccepted_append, countNoneAccepted_append, htr,
          countNoneAccepted_accept_trace, countNoneAccepted_single, h2]
        simp [hne]


/-- C10: for every order imported successfully through
AcceptOrdersFromFile, exactly two ORDER_STATUS audit events with old
status none and new status accepted are emitted for its id — one from
inside AcceptOrder and a second from the import loop — whereas an order
accepted directly through AcceptOrder produces exactly one such event. -/
theorem c10_import_double_audit (s : SysState) (rows : List ImportRow)
    (now : Int) (r : ImportRow)
    (hok : (acceptOrdersFromFile s rows now).1 = .ok ())
    (hr : r ∈ rows) :
    countNoneAccepted r.id (acceptOrdersFromFile s rows now).2.2 = 2 ∧
    (∀ s1 id customerID deadline weight cost pt w s2 tr,
       acceptOrder s1 id customerID deadline weight cost pt w now =
         (.ok (), s2, tr) →
       countNoneAccepted id tr = 1) := by
  constructor
  · exact acceptOrdersFromFile_count_two rows s now r hok hr
  · intro s1 id customerID deadline weight cost pt w s2 tr h
    obtain ⟨o, -, -, -, htr⟩ :=
      acceptOrder_ok_inv s1 id customerID deadline weight cost pt w now
        s2 tr h
    rw [htr, countNoneAccepted_accept_trace]
    simp

/-- Witness for C10: the import of the single concrete row emits exactly
two matching audit events for its id. -/
theorem c10_import_double_audit_witness :
    countNoneAccepted rowA.id
      (acceptOrdersFromFile { repo := [], cache := [] } [rowA] 0).2.2 = 2 :=
  (c10_import_double_audit { repo := [], cache := [] } [rowA] 0 rowA
    (by decide) (List.mem_singleton.mpr rfl)).1

end PVZ
